import Mathlib

/-!
Shallow embedding of `src/python_venv_mgr/manager.py` (class `VirtualEnvManager`).

Python strings are modelled as `List Char` (`PyStr`); filesystem paths are the
strings Python stores for them.  The external collaborators (pathlib existence
checks, `subprocess`, `pip freeze` output, the JSON codec) are modelled as
explicit parameters (`Fs`, a `parse` function, `ProcResult`), exactly as the
spec treats them: black boxes whose observable behaviour the manager consumes.
`hashlib.sha256(...).hexdigest()` is modelled as an injective constructor
(`Digest.mk` applied to the preimage): digest equality is modelled as preimage
equality, which is the equality notion the code relies on.
Character-level Python operations (`str.strip`, `str.lower`, `str.splitlines`)
are modelled on the ASCII range the requirement lines use.
-/

/-- A Python string, as a list of characters. -/
abbrev PyStr := List Char

/-- A filesystem path as the manager stores it (Python keeps `str(path)`). -/
abbrev PyPath := PyStr

/-- Whitespace characters removed by Python `str.strip()` (ASCII range). -/
def isPySpace (c : Char) : Bool :=
  c == ' ' || c == '\t' || c == '\n' || c == '\r' || c == '\x0b' || c == '\x0c'

/-- Python `str.lstrip()`: drop leading whitespace. -/
def lstrip (s : PyStr) : PyStr := s.dropWhile isPySpace

/-- Python `str.rstrip()`: drop trailing whitespace. -/
def rstrip (s : PyStr) : PyStr := (s.reverse.dropWhile isPySpace).reverse

/-- Python `str.strip()`: drop leading and trailing whitespace. -/
def pyStrip (s : PyStr) : PyStr := rstrip (lstrip s)

/-- The upper-to-lower case table of Python `str.lower()` on the ASCII
letters; characters outside the table are returned unchanged, as Python does
for them. -/
def ucPairs : List (Char × Char) :=
  [('A', 'a'), ('B', 'b'), ('C', 'c'), ('D', 'd'), ('E', 'e'), ('F', 'f'),
   ('G', 'g'), ('H', 'h'), ('I', 'i'), ('J', 'j'), ('K', 'k'), ('L', 'l'),
   ('M', 'm'), ('N', 'n'), ('O', 'o'), ('P', 'p'), ('Q', 'q'), ('R', 'r'),
   ('S', 's'), ('T', 't'), ('U', 'u'), ('V', 'v'), ('W', 'w'), ('X', 'x'),
   ('Y', 'y'), ('Z', 'z')]

/-- First-match lookup in a case table. -/
def lowerLookup : List (Char × Char) → Char → Option Char
  | [], _ => none
  | p :: rest, c => if c = p.1 then some p.2 else lowerLookup rest c

/-- Python `str.lower()` on one character (ASCII range). -/
def lowerChar (c : Char) : Char :=
  (lowerLookup ucPairs c).getD c

/-- Python `str.lower()` on a whole string. -/
def pyLower (s : PyStr) : PyStr := s.map lowerChar

/-- Python `" #" in line`: does the string contain a space immediately
followed by a hash mark? -/
def containsHC : PyStr → Bool
  | [] => false
  | c :: rest => (c == ' ' && rest.head? == some '#') || containsHC rest

/-- Python `line.split(" #", 1)[0]`: the text before the first occurrence of
a space immediately followed by a hash mark (the whole string if none). -/
def takeUntilHC : PyStr → PyStr
  | [] => []
  | c :: rest =>
    if c == ' ' && rest.head? == some '#' then []
    else c :: takeUntilHC rest

/-- `VirtualEnvManager._normalize_requirement` (manager.py lines 256-262):
strip; drop if empty or starting with a comment marker; truncate at an inline
comment marker; lower-case the remainder. -/
def normalize_requirement (line : PyStr) : PyStr :=
  let l := pyStrip line
  if l.isEmpty then []
  else if l.head? == some '#' then []
  else
    let l2 := if containsHC l then takeUntilHC l else l
    pyLower l2

/-- The `normalized` list built inside `_hash_requirements` (lines 242-243):
normalize every line, then keep only the non-empty results. -/
def normalized_lines (lines : List PyStr) : List PyStr :=
  (lines.map normalize_requirement).filter (fun l => !l.isEmpty)

/-- Boolean lexicographic comparison of strings by character code point:
the order Python `list.sort()` uses on `str`. -/
def leChars : PyStr → PyStr → Bool
  | [], _ => true
  | _ :: _, [] => false
  | a :: as, b :: bs => if a = b then leChars as bs else decide (a < b)

/-- The string order as a proposition, for `List.insertionSort`. -/
def strLe (a b : PyStr) : Prop := leChars a b = true

instance : DecidableRel strLe := fun a b =>
  inferInstanceAs (Decidable (leChars a b = true))

/-- Python `"\n".join(...)`. -/
def joinNL : List PyStr → PyStr
  | [] => []
  | [s] => s
  | s :: rest => s ++ '\n' :: joinNL rest

/-- Python `str.splitlines()` restricted to the newline separator, which is
the separator the registry and `pip freeze` output use. -/
def splitlinesNL : PyStr → List PyStr
  | [] => []
  | c :: rest =>
    if c = '\n' then [] :: splitlinesNL rest
    else
      match splitlinesNL rest with
      | [] => [[c]]
      | l :: ls => (c :: l) :: ls

/-- The result of `hashlib.sha256(joined.encode()).hexdigest()`, modelled
injectively: a digest is identified by the string that was hashed.  Digest
equality in the model therefore coincides with preimage equality, which is
the equality the reuse logic relies on. -/
structure Digest where
  preimage : PyStr
deriving DecidableEq

/-- The common fingerprint pipeline of `_hash_requirements` (lines 242-246):
normalize, drop empties, sort, join with newlines, hash. -/
def fingerprint_of_lines (lines : List PyStr) : Digest :=
  Digest.mk (joinNL (List.insertionSort strLe (normalized_lines lines)))

/-- The black-box collaborators of the manager (pathlib, `pip freeze`
output, file reads), as the spec's section 6 describes them: existence
checks, path resolution and joining, UTF-8 text reads, and the raw output
of listing an environment's installed packages. -/
structure Fs where
  isAbsolute : PyPath → Bool
  join : PyPath → PyStr → PyPath
  resolve : PyPath → PyPath
  onDisk : PyPath → Bool
  readText : PyPath → PyStr
  pipFreezeOut : PyPath → PyStr

/-- The manager configuration the operations read (`self.base_dir`). -/
structure Manager where
  baseDir : PyPath

/-- One registry record: the JSON object
`{name, path, requirements_hash}` (manager.py lines 72-78). -/
structure RegRecord where
  name : PyStr
  path : PyPath
  requirements_hash : Option Digest
deriving DecidableEq

/-- The `requirements` argument: either a sequence of requirement strings or
a single string/path value (`Sequence[str] | Path | str`). -/
inductive ReqInput where
  | seqOf (lines : List PyStr)
  | strOrPath (s : PyStr)
deriving DecidableEq

/-- Python truthiness of the `requirements` argument, used by the
`if requirements:` tests: an empty sequence and the empty string are falsy. -/
def ReqInput.truthy : ReqInput → Bool
  | .seqOf l => !l.isEmpty
  | .strOrPath s => !s.isEmpty

/-- The side effects the operations perform, in order: running the venv
creation subprocess, running pip install, rewriting the registry document,
removing a directory tree. -/
inductive Eff where
  | runVenvCreate (p : PyPath)
  | pipInstallList (venv : PyPath) (lines : List PyStr)
  | pipInstallFile (venv : PyPath) (reqFile : PyPath)
  | saveRegistry (records : List RegRecord)
  | rmtree (p : PyPath)
deriving DecidableEq

/-- The errors the modelled operations surface (spec section 7 taxonomy). -/
inductive MgrErr where
  | fileExists (p : PyPath)
  | fileNotFound (p : PyPath)
  | processFailure (returncode : Int)
deriving DecidableEq

/-- The line list `_hash_requirements` starts from (lines 233-240): read and
split a file when the argument is a string/path naming an existing file, use
the literal string as a single line otherwise, or take the sequence as is. -/
def req_lines (fs : Fs) : ReqInput → List PyStr
  | .seqOf l => l
  | .strOrPath s => if fs.onDisk s then splitlinesNL (fs.readText s) else [s]

/-- `VirtualEnvManager._hash_requirements` (manager.py lines 232-246). -/
def hash_requirements (fs : Fs) (requirements : ReqInput) : Digest :=
  fingerprint_of_lines (req_lines fs requirements)

/-- `VirtualEnvManager.list_installed_packages` (lines 188-193): split the
`pip freeze` output into lines, strip each, keep the non-empty ones. -/
def list_installed_packages (fs : Fs) (venvPath : PyPath) : List PyStr :=
  ((splitlinesNL (fs.pipFreezeOut venvPath)).map pyStrip).filter (fun l => !l.isEmpty)

/-- `VirtualEnvManager._hash_installed_packages` (lines 248-254), written out
as the source writes it: its own normalize / filter / sort / join / digest
sequence over the installed-package list. -/
def hash_installed_packages (fs : Fs) (venvPath : PyPath) : Digest :=
  let packages := list_installed_packages fs venvPath
  let normalized := (packages.map normalize_requirement).filter (fun l => !l.isEmpty)
  Digest.mk (joinNL (List.insertionSort strLe normalized))

/-- The resolved target location `create_venv` uses (lines 56-57):
the explicit path when given, else `base_dir / name`, then resolved. -/
def create_target (fs : Fs) (cfg : Manager) (name : PyStr) (path? : Option PyPath) : PyPath :=
  fs.resolve (match path? with | some p => p | none => fs.join cfg.baseDir name)

/-- `VirtualEnvManager.install_requirements` (lines 139-162) for a given
venv path.  The pip subprocess itself is recorded as an effect; its possible
non-zero exit is modelled separately by `run_pip_install`. -/
def install_requirements (fs : Fs) (venvPath : PyPath) (requirements : ReqInput) :
    List Eff × Except MgrErr Unit :=
  match requirements with
  | .strOrPath s =>
    if fs.onDisk s then ([.pipInstallFile venvPath s], .ok ())
    else ([], .error (.fileNotFound s))
  | .seqOf l =>
    if l.isEmpty then ([], .ok ())
    else ([.pipInstallList venvPath l], .ok ())

/-- `VirtualEnvManager.create_venv` (manager.py lines 49-80), with the
registry document threaded explicitly as `records` and the venv-creation
subprocess modelled as succeeding (its failure handling is the separately
modelled `run_pip_install` / ProcessFailure path).  Returns the effects
performed, and either the error raised or the created path together with
the rewritten registry. -/
def create_venv (fs : Fs) (cfg : Manager) (records : List RegRecord) (name : PyStr)
    (path? : Option PyPath) (requirements : Option ReqInput) :
    List Eff × Except MgrErr (PyPath × List RegRecord) :=
  let vp := create_target fs cfg name path?
  if fs.onDisk vp then ([], .error (.fileExists vp))
  else
    match requirements with
    | some r =>
      if r.truthy then
        match install_requirements fs vp r with
        | (ieffs, .error e) => (Eff.runVenvCreate vp :: ieffs, .error e)
        | (ieffs, .ok _) =>
          let h := hash_requirements fs r
          let newRecs := records ++ [⟨name, vp, some h⟩]
          (Eff.runVenvCreate vp :: (ieffs ++ [Eff.saveRegistry newRecs]), .ok (vp, newRecs))
      else
        let newRecs := records ++ [⟨name, vp, none⟩]
        ([Eff.runVenvCreate vp, Eff.saveRegistry newRecs], .ok (vp, newRecs))
    | none =>
      let newRecs := records ++ [⟨name, vp, none⟩]
      ([Eff.runVenvCreate vp, Eff.saveRegistry newRecs], .ok (vp, newRecs))

/-- The scan loop of `find_venvs_by_requirements` (lines 220-228): walk the
records in order; where the stored hash is absent and the path still exists
on disk, backfill it from the installed packages; collect the paths whose
(possibly backfilled) hash equals the target.  Returns the updated record
list and the matches. -/
def find_scan (fs : Fs) (target : Digest) : List RegRecord → List RegRecord × List PyPath
  | [] => ([], [])
  | r :: rest =>
    let rec' := find_scan fs target rest
    let restRecs := rec'.1
    let restMatches := rec'.2
    match r.requirements_hash with
    | none =>
      if fs.onDisk r.path then
        let h := hash_installed_packages fs r.path
        ({ r with requirements_hash := some h } :: restRecs,
         if h == target then r.path :: restMatches else restMatches)
      else (r :: restRecs, restMatches)
    | some h => (r :: restRecs, if h == target then r.path :: restMatches else restMatches)

/-- `VirtualEnvManager.find_venvs_by_requirements` (manager.py lines
213-230): hash the request, scan and backfill, save the scanned list once,
return the matches in registry order. -/
def find_venvs_by_requirements (fs : Fs) (records : List RegRecord) (requirements : ReqInput) :
    List Eff × (List PyPath × List RegRecord) :=
  let target := hash_requirements fs requirements
  let scanned := find_scan fs target records
  ([.saveRegistry scanned.1], (scanned.2, scanned.1))

/-- `VirtualEnvManager.get_or_create_venv` (manager.py lines 82-93). -/
def get_or_create_venv (fs : Fs) (cfg : Manager) (records : List RegRecord) (name : PyStr)
    (path? : Option PyPath) (requirements : Option ReqInput) :
    List Eff × Except MgrErr (PyPath × List RegRecord) :=
  match requirements with
  | some r =>
    if r.truthy then
      match find_venvs_by_requirements fs records r with
      | (effs, (p :: _, updated)) => (effs, .ok (p, updated))
      | (effs, ([], updated)) =>
        let c := create_venv fs cfg updated name path? (some r)
        (effs ++ c.1, c.2)
    else create_venv fs cfg records name path? requirements
  | none => create_venv fs cfg records name path? requirements

/-- The target path `delete_venv` computes (lines 108-110): the argument
itself when absolute, else `base_dir / argument` resolved. -/
def delete_target (fs : Fs) (cfg : Manager) (nameOrPath : PyPath) : PyPath :=
  if fs.isAbsolute nameOrPath then nameOrPath
  else fs.resolve (fs.join cfg.baseDir nameOrPath)

/-- `VirtualEnvManager.delete_venv` (manager.py lines 107-125).  Returns the
effects, the boolean result, and the registry as it stands afterwards. -/
def delete_venv (fs : Fs) (cfg : Manager) (records : List RegRecord) (nameOrPath : PyPath)
    (removeDir : Bool) : List Eff × (Bool × List RegRecord) :=
  let target := delete_target fs cfg nameOrPath
  let updated := records.filter (fun r => !(fs.resolve r.path == target))
  let removed := !(records.length == updated.length)
  let effs1 := if removed then [Eff.saveRegistry updated] else []
  let effs2 := if removeDir && fs.onDisk target then [Eff.rmtree target] else []
  (effs1 ++ effs2, (removed, if removed then updated else records))

/-- Errors `_load_registry` can surface: the `FileNotFoundError` that
`Path.read_text` raises on a missing file, and the decode error of
`json.loads` on malformed content. -/
inductive LoadErr where
  | fileNotFound
  | parseError
deriving DecidableEq

/-- `VirtualEnvManager._load_registry` (manager.py lines 279-283).  The
registry document is `none` when the file is absent; `parse` is the JSON
deserialization (`json.loads` plus record decoding), taken as a parameter
since the claims depend only on whether it succeeds. -/
def load_registry (parse : PyStr → Except Unit (List RegRecord)) (doc : Option PyStr) :
    Except LoadErr (List RegRecord) :=
  match doc with
  | none => .error .fileNotFound
  | some content =>
    if (pyStrip content).isEmpty then .ok []
    else
      match parse content with
      | .ok records => .ok records
      | .error _ => .error .parseError

/-- The captured outcome of a `subprocess.run(..., capture_output=True)`
call (returncode, stdout, stderr). -/
structure ProcResult where
  returncode : Int
  stdout : PyStr
  stderr : PyStr

/-- `VirtualEnvManager._run_pip_install` (manager.py lines 298-308): append
the captured stdout then stderr to the log, then `check_returncode`.
Returns the log content after the call, and the raised error if any. -/
def run_pip_install (log : PyStr) (result : ProcResult) : PyStr × Except MgrErr Unit :=
  let logAfter := log ++ result.stdout ++ result.stderr
  (logAfter,
   if result.returncode == 0 then .ok ()
   else .error (.processFailure result.returncode))

/-- The per-record backfill rule of the spec's `find_by_fingerprint`
description: patch the fingerprint from the installed packages exactly when
it is absent and the location still exists on disk. -/
def spec_backfill (fs : Fs) (r : RegRecord) : RegRecord :=
  match r.requirements_hash with
  | none =>
    if fs.onDisk r.path then
      { r with requirements_hash := some (hash_installed_packages fs r.path) }
    else r
  | some _ => r

/-- The set of normalized non-empty requirement lines of a specification,
following the claim's words (set, not multiset). -/
def spec_normalized_set (lines : List PyStr) : Finset PyStr :=
  (normalized_lines lines).toFinset

/-- A concrete filesystem on which every path exists. -/
def fsAll : Fs :=
  ⟨fun _ => true, fun p n => p ++ '/' :: n, id, fun _ => true, fun _ => [], fun _ => []⟩

/-- A concrete filesystem on which no path exists. -/
def fsNone : Fs :=
  ⟨fun _ => true, fun p n => p ++ '/' :: n, id, fun _ => false, fun _ => [], fun _ => []⟩

/-- A concrete manager configuration. -/
def cfg0 : Manager := ⟨['C', ':', '/', 'v']⟩

/-- A concrete JSON deserializer that fails on every document, standing in
for `json.loads` on malformed content. -/
def parseFail : PyStr → Except Unit (List RegRecord) := fun _ => .error ()

/-- The requirement line `flask==2.0` of the spec's reuse scenario. -/
def flaskLine : PyStr := ['f', 'l', 'a', 's', 'k', '=', '=', '2', '.', '0']

/-- A concrete registry record for environment `e1` at path `p1`, carrying
the stored fingerprint of `["flask==2.0"]`, while `p1` no longer exists on
the `fsNone` filesystem. -/
def recE1 : RegRecord :=
  ⟨['e', '1'], ['p', '1'], some (hash_requirements fsNone (.seqOf [flaskLine]))⟩

theorem hash_installed_eq_fingerprint (fs : Fs) (p : PyPath) :
    hash_installed_packages fs p = fingerprint_of_lines (list_installed_packages fs p) := rfl

theorem find_scan_eq (fs : Fs) (t : Digest) (records : List RegRecord) :
    find_scan fs t records =
      (records.map (spec_backfill fs),
       ((records.map (spec_backfill fs)).filter
         (fun r => r.requirements_hash == some t)).map RegRecord.path) := by
  induction records with
  | nil => rfl
  | cons r rest ih =>
    cases h : r.requirements_hash with
    | none =>
      by_cases hd : fs.onDisk r.path
      · by_cases hm : hash_installed_packages fs r.path = t
        · simp [find_scan, ih, h, hd, hm, spec_backfill, List.filter_cons]
        · simp [find_scan, ih, h, hd, hm, spec_backfill, List.filter_cons]
      · simp [find_scan, ih, h, hd, spec_backfill, List.filter_cons]
    | some hh =>
      by_cases hm : hh = t
      · simp [find_scan, ih, h, hm, spec_backfill, List.filter_cons]
      · simp [find_scan, ih, h, hm, spec_backfill, List.filter_cons]

theorem find_venvs_spec (fs : Fs) (records : List RegRecord) (reqs : ReqInput) :
    find_venvs_by_requirements fs records reqs =
      ([.saveRegistry (records.map (spec_backfill fs))],
       (((records.map (spec_backfill fs)).filter
           (fun r => r.requirements_hash == some (hash_requirements fs reqs))).map RegRecord.path,
        records.map (spec_backfill fs))) := by
  simp only [find_venvs_by_requirements, find_scan_eq]

/-- Claim C7: `find_venvs_by_requirements` loads all records; every record
whose fingerprint is absent and whose path still exists on disk gets its
fingerprint backfilled by hashing the environment's installed packages
through the identical normalization pipeline; the (possibly backfilled) list
is persisted exactly once after the scan; and the returned paths are exactly
those of records whose fingerprint equals the target, in registry order. -/
theorem find_venvs_by_requirements_characterization (fs : Fs) (records : List RegRecord)
    (reqs : ReqInput) :
    (find_venvs_by_requirements fs records reqs).1 =
        [.saveRegistry (records.map (spec_backfill fs))] ∧
    (find_venvs_by_requirements fs records reqs).2.2 = records.map (spec_backfill fs) ∧
    (find_venvs_by_requirements fs records reqs).2.1 =
      ((records.map (spec_backfill fs)).filter
        (fun r => r.requirements_hash == some (hash_requirements fs reqs))).map RegRecord.path ∧
    (∀ p, hash_installed_packages fs p = fingerprint_of_lines (list_installed_packages fs p)) := by
  rw [find_venvs_spec]
  exact ⟨rfl, rfl, rfl, fun _ => rfl⟩

/-- Claim C8: whenever the pip subprocess exits non-zero, `_run_pip_install`
has appended all captured stdout and stderr to the log before the
ProcessFailure error is raised, and the error is raised iff the exit status
is non-zero. -/
theorem run_pip_install_log_and_raise (log : PyStr) (r : ProcResult) :
    (run_pip_install log r).1 = log ++ r.stdout ++ r.stderr ∧
    ((run_pip_install log r).2 = .error (.processFailure r.returncode) ↔ r.returncode ≠ 0) ∧
    ((run_pip_install log r).2 = .ok () ↔ r.returncode = 0) := by
  unfold run_pip_install
  by_cases h : r.returncode = 0 <;> simp [h]

theorem length_ne_filter_iff {α : Type} (p : α → Bool) (l : List α) :
    ¬ l.length = (l.filter p).length ↔ ∃ x ∈ l, ¬ p x := by
  rw [← List.length_filter_lt_length_iff_exists]
  constructor
  · intro h
    exact lt_of_le_of_ne (List.length_filter_le p l) (fun e => h e.symm)
  · intro h e
    exact absurd e.symm (ne_of_lt h)

theorem all_of_length_eq_filter {α : Type} {p : α → Bool} {l : List α}
    (h : l.length = (l.filter p).length) : ∀ x ∈ l, p x = true := by
  by_contra hc
  push_neg at hc
  obtain ⟨x, hx, hpx⟩ := hc
  exact (length_ne_filter_iff p l).mpr ⟨x, hx, hpx⟩ h

/-- Claim C9: `delete_venv` returns true iff some registry record's resolved
path equals the computed target, and rewrites the registry document only in
that case; yet with `remove_dir` true the directory at the target is removed
from disk whenever it exists, including when no record matched and the call
returns false. -/
theorem delete_venv_characterization (fs : Fs) (cfg : Manager) (records : List RegRecord)
    (nameOrPath : PyPath) (removeDir : Bool) :
    ((delete_venv fs cfg records nameOrPath removeDir).2.1 = true ↔
      ∃ r ∈ records, fs.resolve r.path = delete_target fs cfg nameOrPath) ∧
    ((∃ recs, Eff.saveRegistry recs ∈ (delete_venv fs cfg records nameOrPath removeDir).1) ↔
      (delete_venv fs cfg records nameOrPath removeDir).2.1 = true) ∧
    (Eff.rmtree (delete_target fs cfg nameOrPath) ∈
        (delete_venv fs cfg records nameOrPath removeDir).1 ↔
      (removeDir = true ∧ fs.onDisk (delete_target fs cfg nameOrPath) = true)) ∧
    ((delete_venv fs cfg records nameOrPath removeDir).2.1 = false →
      (delete_venv fs cfg records nameOrPath removeDir).2.2 = records) := by
  unfold delete_venv
  simp only []
  by_cases hrem : records.length =
      (records.filter
        (fun r => !(fs.resolve r.path == delete_target fs cfg nameOrPath))).length
  · have hall : ∀ x ∈ records, ¬ fs.resolve x.path = delete_target fs cfg nameOrPath := by
      intro x hx
      have hb := all_of_length_eq_filter hrem x hx
      simpa using hb
    by_cases hrd : removeDir = true ∧ fs.onDisk (delete_target fs cfg nameOrPath) = true
    · refine ⟨?_, ?_, ?_, ?_⟩ <;>
        simp_all [length_ne_filter_iff, Bool.and_eq_true]
    · refine ⟨?_, ?_, ?_, ?_⟩ <;>
        simp_all [length_ne_filter_iff, Bool.and_eq_true, Bool.not_eq_true,
          Bool.and_eq_false_iff]
  · by_cases hrd : removeDir = true ∧ fs.onDisk (delete_target fs cfg nameOrPath) = true
    · refine ⟨?_, ?_, ?_, ?_⟩ <;>
        simp_all [length_ne_filter_iff, Bool.and_eq_true]
    · refine ⟨?_, ?_, ?_, ?_⟩ <;>
        simp_all [length_ne_filter_iff, Bool.and_eq_true, Bool.not_eq_true,
          Bool.and_eq_false_iff]

/-- Claim C6: when the resolved target location already exists on disk,
`create_venv` fails with the AlreadyExists error before any effect: no
subprocess runs, the registry document is untouched, and the existing
location is never overwritten. -/
theorem create_venv_already_exists (fs : Fs) (cfg : Manager) (records : List RegRecord)
    (name : PyStr) (path? : Option PyPath) (reqs? : Option ReqInput)
    (h : fs.onDisk (create_target fs cfg name path?) = true) :
    create_venv fs cfg records name path? reqs? =
      ([], .error (.fileExists (create_target fs cfg name path?))) := by
  unfold create_venv
  simp [h]

/-- Witness for C6 at a concrete filesystem on which every path exists. -/
theorem create_venv_already_exists_witness :
    fsAll.onDisk (create_target fsAll cfg0 ['e'] none) = true ∧
    create_venv fsAll cfg0 [] ['e'] none none =
      ([], .error (.fileExists (create_target fsAll cfg0 ['e'] none))) :=
  ⟨rfl, create_venv_already_exists fsAll cfg0 [] ['e'] none none rfl⟩

/-- Claim C5 counterexample: when the registry document is absent,
`_load_registry` raises FileNotFoundError (from `Path.read_text`) instead of
returning an empty sequence, refuting the claim's "absent or blank" clause. -/
theorem load_registry_absent_refutes_claim :
    load_registry parseFail none = .error .fileNotFound ∧
    load_registry parseFail none ≠ .ok [] :=
  ⟨rfl, fun h => Except.noConfusion h⟩

/-- Claim C5 as amended: load returns the empty sequence when the document is
present but blank; it fails with FileNotFoundError when the document is
absent; and when the document is present, non-blank and malformed it fails
with a ParseError — never returning an empty list. -/
theorem load_registry_characterization (parse : PyStr → Except Unit (List RegRecord))
    (doc : Option PyStr) :
    (doc = none → load_registry parse doc = .error .fileNotFound) ∧
    (∀ c, doc = some c → (pyStrip c).isEmpty = true → load_registry parse doc = .ok []) ∧
    (∀ c e, doc = some c → (pyStrip c).isEmpty = false → parse c = .error e →
      load_registry parse doc = .error .parseError) := by
  refine ⟨?_, ?_, ?_⟩
  · intro h
    subst h
    rfl
  · intro c hdoc hblank
    subst hdoc
    simp [load_registry, hblank]
  · intro c e hdoc hblank hparse
    subst hdoc
    simp [load_registry, hblank, hparse]

/-- Witness for C5 at concrete documents and the always-failing parser. -/
theorem load_registry_characterization_witness :
    load_registry parseFail none = .error .fileNotFound ∧
    load_registry parseFail (some [' ']) = .ok [] ∧
    load_registry parseFail (some ['x']) = .error .parseError :=
  ⟨(load_registry_characterization parseFail none).1 rfl,
   (load_registry_characterization parseFail (some [' '])).2.1 [' '] rfl rfl,
   (load_registry_characterization parseFail (some ['x'])).2.2 ['x'] () rfl rfl rfl⟩

/-- Claim C10: with requirements None or an empty sequence,
`get_or_create_venv` performs no fingerprint lookup (it behaves exactly as
`create_venv`, with no registry query effect), and the record the creation
path appends stores a null `requirements_hash` — not the fingerprint of the
empty line set. -/
theorem get_or_create_empty_requirements (fs : Fs) (cfg : Manager) (records : List RegRecord)
    (name : PyStr) (path? : Option PyPath) (r? : Option ReqInput)
    (h : r? = none ∨ r? = some (.seqOf [])) :
    get_or_create_venv fs cfg records name path? r? =
      create_venv fs cfg records name path? r? ∧
    (fs.onDisk (create_target fs cfg name path?) = false →
      get_or_create_venv fs cfg records name path? r? =
        ([.runVenvCreate (create_target fs cfg name path?),
          .saveRegistry (records ++ [⟨name, create_target fs cfg name path?, none⟩])],
         .ok (create_target fs cfg name path?,
              records ++ [⟨name, create_target fs cfg name path?, none⟩]))) := by
  rcases h with h | h <;> subst h
  · refine ⟨rfl, ?_⟩
    intro hd
    unfold get_or_create_venv create_venv
    simp [hd]
  · refine ⟨rfl, ?_⟩
    intro hd
    unfold get_or_create_venv create_venv
    simp [hd, ReqInput.truthy]

/-- Witness for C10 at a concrete filesystem on which nothing exists. -/
theorem get_or_create_empty_requirements_witness :
    get_or_create_venv fsNone cfg0 [] ['e'] none (some (.seqOf [])) =
      ([.runVenvCreate (create_target fsNone cfg0 ['e'] none),
        .saveRegistry [⟨['e'], create_target fsNone cfg0 ['e'] none, none⟩]],
       .ok (create_target fsNone cfg0 ['e'] none,
            [⟨['e'], create_target fsNone cfg0 ['e'] none, none⟩])) :=
  (get_or_create_empty_requirements fsNone cfg0 [] ['e'] none (some (.seqOf []))
    (Or.inr rfl)).2 rfl

/-- Claim C2 counterexample: with one registry record whose stored
fingerprint matches the request but whose path no longer exists on disk
(`fsNone` has nothing on disk), no existing still-on-disk environment
matches, yet `get_or_create_venv` returns that record's location and
provisions nothing, refuting the claim's "otherwise it provisions and
appends" branch. -/
theorem get_or_create_offdisk_reuse_refutes_claim :
    fsNone.onDisk recE1.path = false ∧
    get_or_create_venv fsNone cfg0 [recE1] ['e', '2'] none (some (.seqOf [flaskLine])) =
      ([.saveRegistry [recE1]], .ok (recE1.path, [recE1])) :=
  ⟨rfl, rfl⟩

/-- Claim C2 as amended: for a truthy requirements specification,
`get_or_create_venv` queries the registry for records whose (possibly
backfilled) fingerprint equals the specification's fingerprint — regardless
of whether the recorded environment still exists on disk (disk existence
only gates backfilling); if any record matches it returns the first match's
path in registry order without creating anything and leaves the registry
length unchanged; only when no record at all matches does it provision and
append a new environment. -/
theorem get_or_create_reuse_characterization (fs : Fs) (cfg : Manager)
    (records : List RegRecord) (name : PyStr) (path? : Option PyPath) (r : ReqInput)
    (ht : r.truthy = true) (target : Digest) (updated : List RegRecord)
    (ms : List PyPath) (htar : target = hash_requirements fs r)
    (hupd : updated = records.map (spec_backfill fs))
    (hmat : ms =
      (updated.filter (fun x => x.requirements_hash == some target)).map RegRecord.path) :
    updated.length = records.length ∧
    (∀ p rest, ms = p :: rest →
      get_or_create_venv fs cfg records name path? (some r) =
        ([.saveRegistry updated], .ok (p, updated))) ∧
    (ms = [] →
      get_or_create_venv fs cfg records name path? (some r) =
        (Eff.saveRegistry updated :: (create_venv fs cfg updated name path? (some r)).1,
         (create_venv fs cfg updated name path? (some r)).2)) ∧
    (∀ lines, r = .seqOf lines → ms = [] →
      fs.onDisk (create_target fs cfg name path?) = false →
      get_or_create_venv fs cfg records name path? (some r) =
        ([.saveRegistry updated, .runVenvCreate (create_target fs cfg name path?),
          .pipInstallList (create_target fs cfg name path?) lines,
          .saveRegistry (updated ++ [⟨name, create_target fs cfg name path?, some target⟩])],
         .ok (create_target fs cfg name path?,
              updated ++ [⟨name, create_target fs cfg name path?, some target⟩]))) := by
  subst htar hupd hmat
  refine ⟨by simp, ?_, ?_, ?_⟩
  · intro p rest hm
    simp only [get_or_create_venv, ht, if_true, find_venvs_spec, hm]
  · intro hm
    simp only [get_or_create_venv, ht, if_true, find_venvs_spec, hm]
    rfl
  · intro lines hr hm hd
    subst hr
    have hlines : lines.isEmpty = false := by
      simpa [ReqInput.truthy] using ht
    simp only [get_or_create_venv, ht, if_true, find_venvs_spec, hm]
    simp [create_venv, hd, install_requirements, hlines, ReqInput.truthy]

/-- Witness for C2 as amended, at the concrete reuse configuration. -/
theorem get_or_create_reuse_characterization_witness :
    get_or_create_venv fsNone cfg0 [recE1] ['e', '2'] none (some (.seqOf [flaskLine])) =
      ([.saveRegistry [recE1]], .ok (recE1.path, [recE1])) :=
  (get_or_create_reuse_characterization fsNone cfg0 [recE1] ['e', '2'] none
      (.seqOf [flaskLine]) rfl (hash_requirements fsNone (.seqOf [flaskLine]))
      [recE1] [recE1.path] rfl rfl rfl).2.1 recE1.path [] rfl

theorem leChars_total (a b : PyStr) : leChars a b = true ∨ leChars b a = true := by
  induction a generalizing b with
  | nil => exact Or.inl rfl
  | cons c as ih =>
    cases b with
    | nil => exact Or.inr rfl
    | cons d bs =>
      by_cases h : c = d
      · subst h
        rcases ih bs with h' | h' <;> simp [leChars, h']
      · rcases lt_or_gt_of_ne h with hlt | hlt
        · exact Or.inl (by simp [leChars, h, hlt])
        · exact Or.inr (by simp [leChars, Ne.symm h, not_lt_of_gt hlt, hlt])

theorem leChars_trans {a b c : PyStr} (h1 : leChars a b = true) (h2 : leChars b c = true) :
    leChars a c = true := by
  induction a generalizing b c with
  | nil => rfl
  | cons x as ih =>
    cases b with
    | nil => simp [leChars] at h1
    | cons y bs =>
      cases c with
      | nil => simp [leChars] at h2
      | cons z cs =>
        by_cases hxy : x = y <;> by_cases hyz : y = z
        · subst hxy
          subst hyz
          simp only [leChars, if_pos rfl] at h1 h2 ⊢
          exact ih h1 h2
        · subst hxy
          simp [leChars, hyz] at h2 ⊢
          simp [h2]
        · subst hyz
          simp [leChars, hxy] at h1 ⊢
          simp [h1]
        · simp [leChars, hxy, hyz] at h1 h2
          have hxz : x < z := lt_trans h1 h2
          simp [leChars, ne_of_lt hxz, hxz]

theorem leChars_antisymm {a b : PyStr} (h1 : leChars a b = true) (h2 : leChars b a = true) :
    a = b := by
  induction a generalizing b with
  | nil =>
    cases b with
    | nil => rfl
    | cons d bs => simp [leChars] at h2
  | cons c as ih =>
    cases b with
    | nil => simp [leChars] at h1
    | cons d bs =>
      by_cases h : c = d
      · subst h
        simp only [leChars, if_pos rfl] at h1 h2
        rw [ih h1 h2]
      · simp [leChars, h] at h1
        simp [leChars, Ne.symm h] at h2
        exact absurd h2 (not_lt_of_gt h1)

instance : IsTotal PyStr strLe := ⟨leChars_total⟩

instance : IsTrans PyStr strLe := ⟨fun _ _ _ => leChars_trans⟩

instance : IsAntisymm PyStr strLe := ⟨fun _ _ => leChars_antisymm⟩

theorem insertionSort_eq_of_perm {l1 l2 : List PyStr} (h : l1.Perm l2) :
    List.insertionSort strLe l1 = List.insertionSort strLe l2 :=
  List.eq_of_perm_of_sorted
    (((List.perm_insertionSort strLe l1).trans h).trans
      (List.perm_insertionSort strLe l2).symm)
    (List.sorted_insertionSort strLe l1) (List.sorted_insertionSort strLe l2)

/-- Claim C3: the fingerprint is order-independent — `_hash_requirements`
returns the same digest on every permutation of a sequence of requirement
lines. -/
theorem hash_requirements_perm_invariant (fs : Fs) (l1 l2 : List PyStr) (h : l1.Perm l2) :
    hash_requirements fs (.seqOf l1) = hash_requirements fs (.seqOf l2) := by
  unfold hash_requirements req_lines fingerprint_of_lines
  have hp : (normalized_lines l1).Perm (normalized_lines l2) :=
    (h.map normalize_requirement).filter _
  rw [insertionSort_eq_of_perm hp]

/-- Witness for C3 at the spec's example permutation. -/
theorem hash_requirements_perm_invariant_witness :
    hash_requirements fsNone (.seqOf [['a'], ['b']]) =
      hash_requirements fsNone (.seqOf [['b'], ['a']]) :=
  hash_requirements_perm_invariant fsNone [['a'], ['b']] [['b'], ['a']] (by decide)

theorem mem_of_mem_rstrip {c : Char} {s : PyStr} (h : c ∈ rstrip s) : c ∈ s := by
  unfold rstrip at h
  rw [List.mem_reverse] at h
  exact List.mem_reverse.mp ((List.dropWhile_sublist _).subset h)

theorem mem_of_mem_pyStrip {c : Char} {s : PyStr} (h : c ∈ pyStrip s) : c ∈ s := by
  unfold pyStrip lstrip at h
  exact (List.dropWhile_sublist _).subset (mem_of_mem_rstrip h)

theorem mem_of_mem_takeUntilHC {c : Char} : ∀ {s : PyStr}, c ∈ takeUntilHC s → c ∈ s := by
  intro s
  induction s with
  | nil => intro h; exact absurd h (List.not_mem_nil c)
  | cons d rest ih =>
    intro h
    unfold takeUntilHC at h
    by_cases hc : (d == ' ' && rest.head? == some '#') = true
    · rw [if_pos hc] at h
      exact absurd h (List.not_mem_nil c)
    · rw [if_neg hc] at h
      rcases List.mem_cons.mp h with h | h
      · exact h ▸ List.mem_cons_self d rest
      · exact List.mem_cons_of_mem d (ih h)

theorem lowerLookup_mem {l : List (Char × Char)} {c d : Char}
    (h : lowerLookup l c = some d) : (c, d) ∈ l := by
  induction l with
  | nil => exact absurd h (by simp [lowerLookup])
  | cons p rest ih =>
    unfold lowerLookup at h
    by_cases hc : c = p.1
    · rw [if_pos hc] at h
      obtain rfl := Option.some.injEq _ _ ▸ h
      exact List.mem_cons.mpr (Or.inl (by rw [hc]))
    · rw [if_neg hc] at h
      exact List.mem_cons_of_mem p (ih h)

theorem lowerChar_ne_newline {c : Char} (h : c ≠ '\n') : lowerChar c ≠ '\n' := by
  unfold lowerChar
  cases hl : lowerLookup ucPairs c with
  | none => exact h
  | some d =>
    have hm := lowerLookup_mem hl
    have hall : ∀ p ∈ ucPairs, p.2 ≠ '\n' := by decide
    exact hall _ hm

theorem newline_not_mem_normalize {x : PyStr} (h : '\n' ∉ x) :
    '\n' ∉ normalize_requirement x := by
  unfold normalize_requirement
  by_cases h1 : (pyStrip x).isEmpty
  · simp [h1]
  · by_cases h2 : ((pyStrip x).head? == some '#') = true
    · simp [h1, h2]
    · simp only [h1, h2, Bool.false_eq_true, if_false]
      intro hm
      obtain ⟨d, hd, hld⟩ := List.mem_map.mp hm
      have hdx : d ∈ x := by
        by_cases hc : containsHC (pyStrip x) = true
        · rw [if_pos hc] at hd
          exact mem_of_mem_pyStrip (mem_of_mem_takeUntilHC hd)
        · rw [if_neg hc] at hd
          exact mem_of_mem_pyStrip hd
      exact lowerChar_ne_newline (fun e => h (e ▸ hdx)) hld

theorem append_newline_inj : ∀ (a : PyStr) (b x y : PyStr), '\n' ∉ a → '\n' ∉ b →
    a ++ '\n' :: x = b ++ '\n' :: y → a = b ∧ x = y := by
  intro a
  induction a with
  | nil =>
    intro b x y _ hb e
    cases b with
    | nil => simpa using e
    | cons d bs =>
      rw [List.nil_append, List.cons_append, List.cons.injEq] at e
      obtain ⟨hd, _⟩ := e
      subst hd
      simp at hb
  | cons c as ih =>
    intro b x y ha hb e
    cases b with
    | nil =>
      rw [List.cons_append, List.nil_append, List.cons.injEq] at e
      obtain ⟨hd, _⟩ := e
      subst hd
      simp at ha
    | cons d bs =>
      rw [List.cons_append, List.cons_append, List.cons.injEq] at e
      obtain ⟨hcd, he⟩ := e
      have ha' : '\n' ∉ as := fun hm => ha (List.mem_cons_of_mem c hm)
      have hb' : '\n' ∉ bs := fun hm => hb (List.mem_cons_of_mem d hm)
      obtain ⟨h1, h2⟩ := ih bs x y ha' hb' he
      exact ⟨by rw [hcd, h1], h2⟩

theorem joinNL_inj : ∀ (L1 L2 : List PyStr),
    (∀ s ∈ L1, s ≠ [] ∧ '\n' ∉ s) → (∀ s ∈ L2, s ≠ [] ∧ '\n' ∉ s) →
    joinNL L1 = joinNL L2 → L1 = L2
  | [], [], _, _, _ => rfl
  | [], [t], _, h2, e => absurd e.symm (h2 t (by simp)).1
  | [], _ :: _ :: _, _, _, e => by simp [joinNL] at e
  | [s], [], h1, _, e => absurd e (h1 s (by simp)).1
  | _ :: _ :: _, [], _, _, e => by simp [joinNL] at e
  | [s], [t], _, _, e => by rw [show joinNL [s] = s from rfl, show joinNL [t] = t from rfl] at e; rw [e]
  | [s], t :: u :: L2, h1, h2, e => by
    have hm : '\n' ∈ s := by
      rw [show joinNL [s] = s from rfl] at e
      rw [e, show joinNL (t :: u :: L2) = t ++ '\n' :: joinNL (u :: L2) from rfl]
      simp
    exact absurd hm (h1 s (by simp)).2
  | s :: u :: L1, [t], h1, h2, e => by
    have hm : '\n' ∈ t := by
      rw [show joinNL [t] = t from rfl] at e
      rw [← e, show joinNL (s :: u :: L1) = s ++ '\n' :: joinNL (u :: L1) from rfl]
      simp
    exact absurd hm (h2 t (by simp)).2
  | s :: u :: L1, t :: v :: L2, h1, h2, e => by
    rw [show joinNL (s :: u :: L1) = s ++ '\n' :: joinNL (u :: L1) from rfl,
      show joinNL (t :: v :: L2) = t ++ '\n' :: joinNL (v :: L2) from rfl] at e
    obtain ⟨hst, he⟩ :=
      append_newline_inj s t _ _ (h1 s (by simp)).2 (h2 t (by simp)).2 e
    have htl := joinNL_inj (u :: L1) (v :: L2)
      (fun w hw => h1 w (List.mem_cons_of_mem s hw))
      (fun w hw => h2 w (List.mem_cons_of_mem t hw)) he
    rw [hst, htl]

theorem normalized_mem_props {l : List PyStr} (hl : ∀ s ∈ l, '\n' ∉ s) :
    ∀ s ∈ List.insertionSort strLe (normalized_lines l), s ≠ [] ∧ '\n' ∉ s := by
  intro s hs
  rw [List.mem_insertionSort] at hs
  unfold normalized_lines at hs
  rw [List.mem_filter] at hs
  obtain ⟨hmap, hne⟩ := hs
  obtain ⟨x, hx, rfl⟩ := List.mem_map.mp hmap
  refine ⟨?_, newline_not_mem_normalize (hl x hx)⟩
  intro hempty
  rw [hempty] at hne
  simp at hne

/-- Claim C1 counterexample: the iff with normalized *sets* fails in both
directions.  A specification listing `a` twice and one listing it once have
equal normalized sets yet different fingerprints (the code sorts but never
deduplicates, so the joined preimages `a\na` and `a` differ); and a
specification whose single line embeds a newline fingerprints identically to
the two-line specification it splits into (the newline join collides), while
the normalized sets differ. -/
theorem hash_requirements_set_iff_refuted :
    (spec_normalized_set [['a'], ['a']] = spec_normalized_set [['a']] ∧
     hash_requirements fsNone (.seqOf [['a'], ['a']]) ≠
       hash_requirements fsNone (.seqOf [['a']])) ∧
    (hash_requirements fsNone (.seqOf [['a', '\n', 'b']]) =
       hash_requirements fsNone (.seqOf [['a'], ['b']]) ∧
     spec_normalized_set [['a', '\n', 'b']] ≠ spec_normalized_set [['a'], ['b']]) := by
  refine ⟨⟨?_, ?_⟩, ?_, ?_⟩ <;> decide

/-- Claim C1 as amended: for specifications given as sequences of
newline-free requirement lines, the fingerprints are equal iff the
*multisets* (permutation classes) of normalized non-empty requirement lines
are equal.  The set version fails on duplicate lines, and without the
newline-free restriction a line embedding a newline collides with the lines
it splits into. -/
theorem hash_requirements_eq_iff_perm (fs : Fs) (l1 l2 : List PyStr)
    (h1 : ∀ s ∈ l1, '\n' ∉ s) (h2 : ∀ s ∈ l2, '\n' ∉ s) :
    hash_requirements fs (.seqOf l1) = hash_requirements fs (.seqOf l2) ↔
      (normalized_lines l1).Perm (normalized_lines l2) := by
  constructor
  · intro e
    have ej : joinNL (List.insertionSort strLe (normalized_lines l1)) =
        joinNL (List.insertionSort strLe (normalized_lines l2)) :=
      congrArg Digest.preimage e
    have hs := joinNL_inj _ _ (normalized_mem_props h1) (normalized_mem_props h2) ej
    have p1 := (List.perm_insertionSort strLe (normalized_lines l1)).symm
    have p2 := List.perm_insertionSort strLe (normalized_lines l2)
    exact (hs ▸ p1).trans p2
  · intro hp
    unfold hash_requirements req_lines fingerprint_of_lines
    rw [insertionSort_eq_of_perm hp]

/-- Witness for C1 as amended at a concrete pair of specifications. -/
theorem hash_requirements_eq_iff_perm_witness :
    hash_requirements fsNone (.seqOf [['a'], ['b']]) =
        hash_requirements fsNone (.seqOf [['b'], ['a']]) ↔
      (normalized_lines [['a'], ['b']]).Perm (normalized_lines [['b'], ['a']]) :=
  hash_requirements_eq_iff_perm fsNone [['a'], ['b']] [['b'], ['a']]
    (by decide) (by decide)

theorem lowerChar_ne_hash {c : Char} (h : c ≠ '#') : lowerChar c ≠ '#' := by
  unfold lowerChar
  cases hl : lowerLookup ucPairs c with
  | none => exact h
  | some d =>
    have hall : ∀ p ∈ ucPairs, p.2 ≠ '#' := by decide
    exact hall _ (lowerLookup_mem hl)

theorem isPySpace_lowerChar (c : Char) : isPySpace (lowerChar c) = isPySpace c := by
  unfold lowerChar
  cases hl : lowerLookup ucPairs c with
  | none => rfl
  | some d =>
    have hall : ∀ p ∈ ucPairs, isPySpace p.1 = false ∧ isPySpace p.2 = false := by decide
    obtain ⟨hfst, hsnd⟩ := hall _ (lowerLookup_mem hl)
    rw [Option.getD_some, hsnd, hfst]

theorem lowerChar_eq_space_iff (c : Char) : lowerChar c = ' ' ↔ c = ' ' := by
  unfold lowerChar
  cases hl : lowerLookup ucPairs c with
  | none => exact Iff.rfl
  | some d =>
    have hall : ∀ p ∈ ucPairs, p.1 ≠ ' ' ∧ p.2 ≠ ' ' := by decide
    obtain ⟨hfst, hsnd⟩ := hall _ (lowerLookup_mem hl)
    rw [Option.getD_some]
    exact ⟨fun e => absurd e hsnd, fun e => absurd e hfst⟩

theorem lowerChar_eq_hash_iff (c : Char) : lowerChar c = '#' ↔ c = '#' := by
  unfold lowerChar
  cases hl : lowerLookup ucPairs c with
  | none => exact Iff.rfl
  | some d =>
    have hall : ∀ p ∈ ucPairs, p.1 ≠ '#' ∧ p.2 ≠ '#' := by decide
    obtain ⟨hfst, hsnd⟩ := hall _ (lowerLookup_mem hl)
    rw [Option.getD_some]
    exact ⟨fun e => absurd e hsnd, fun e => absurd e hfst⟩

theorem lowerChar_lowerChar (c : Char) : lowerChar (lowerChar c) = lowerChar c := by
  cases hl : lowerLookup ucPairs c with
  | none =>
    have hc : lowerChar c = c := by unfold lowerChar; rw [hl]; rfl
    rw [hc]
    exact hc
  | some d =>
    have hc : lowerChar c = d := by unfold lowerChar; rw [hl]; rfl
    have hall : ∀ p ∈ ucPairs, lowerLookup ucPairs p.2 = none := by decide
    have hd := hall _ (lowerLookup_mem hl)
    rw [hc]
    unfold lowerChar
    rw [hd]
    rfl

theorem pyLower_pyLower (s : PyStr) : pyLower (pyLower s) = pyLower s := by
  unfold pyLower
  rw [List.map_map]
  exact List.map_congr_left (fun c _ => lowerChar_lowerChar c)

theorem pyLower_head_hash (s : PyStr) :
    ((pyLower s).head? == some '#') = (s.head? == some '#') := by
  cases s with
  | nil => rfl
  | cons d t =>
    rw [Bool.eq_iff_iff]
    simp [pyLower, lowerChar_eq_hash_iff]

theorem containsHC_pyLower (s : PyStr) : containsHC (pyLower s) = containsHC s := by
  induction s with
  | nil => rfl
  | cons c rest ih =>
    have hstep : pyLower (c :: rest) = lowerChar c :: pyLower rest := rfl
    rw [hstep, containsHC, containsHC, ih, pyLower_head_hash]
    rw [Bool.eq_iff_iff]
    simp [lowerChar_eq_space_iff]

theorem takeUntilHC_head_hash {s : PyStr}
    (h : (takeUntilHC s).head? = some '#') : s.head? = some '#' := by
  cases s with
  | nil => simp [takeUntilHC] at h
  | cons d t =>
    unfold takeUntilHC at h
    by_cases hc : (d == ' ' && t.head? == some '#') = true
    · rw [if_pos hc] at h
      simp at h
    · rw [if_neg hc] at h
      simpa using h

theorem containsHC_takeUntilHC (s : PyStr) : containsHC (takeUntilHC s) = false := by
  induction s with
  | nil => rfl
  | cons c rest ih =>
    unfold takeUntilHC
    by_cases hc : (c == ' ' && rest.head? == some '#') = true
    · rw [if_pos hc]
      rfl
    · rw [if_neg hc, containsHC, ih]
      have hx : (c == ' ' && (takeUntilHC rest).head? == some '#') = false := by
        by_contra hgood
        have hb : (c == ' ' && (takeUntilHC rest).head? == some '#') = true := by
          revert hgood
          cases (c == ' ' && (takeUntilHC rest).head? == some '#') <;> simp
        rw [Bool.and_eq_true, beq_iff_eq, beq_iff_eq] at hb
        exact hc (by
          rw [Bool.and_eq_true, beq_iff_eq, beq_iff_eq]
          exact ⟨hb.1, takeUntilHC_head_hash hb.2⟩)
      rw [hx]
      rfl

theorem containsHC_append_of (a b : PyStr) (h : containsHC (a ++ b) = false) :
    containsHC a = false := by
  induction a with
  | nil => rfl
  | cons c t ih =>
    rw [List.cons_append, containsHC, Bool.or_eq_false_iff] at h
    rw [containsHC, Bool.or_eq_false_iff]
    refine ⟨?_, ih h.2⟩
    cases t with
    | nil => simp
    | cons d u => exact h.1

theorem dropWhile_head_false {p : Char → Bool} :
    ∀ {s : List Char} {c : Char}, (s.dropWhile p).head? = some c → p c = false := by
  intro s
  induction s with
  | nil => intro c h; simp at h
  | cons d t ih =>
    intro c h
    rw [List.dropWhile_cons] at h
    by_cases hd : p d = true
    · rw [if_pos hd] at h
      exact ih h
    · rw [if_neg hd] at h
      obtain rfl : d = c := by simpa using h
      simpa using hd

theorem rstrip_cons_of_not {c : Char} (hc : isPySpace c = false) (l : PyStr) :
    rstrip (c :: l) = c :: rstrip l := by
  unfold rstrip
  rw [List.reverse_cons, List.dropWhile_append]
  by_cases he : (l.reverse.dropWhile isPySpace).isEmpty = true
  · rw [if_pos he]
    have hl : l.reverse.dropWhile isPySpace = [] := by
      rwa [List.isEmpty_iff] at he
    rw [hl]
    simp [List.dropWhile, hc]
  · rw [if_neg he]
    rw [List.reverse_append]
    have hone : [c].reverse = [c] := rfl
    rw [hone]
    rfl

theorem exists_rstrip_spaces (s : PyStr) :
    ∃ w, (∀ c ∈ w, isPySpace c = true) ∧ s = rstrip s ++ w := by
  refine ⟨(s.reverse.takeWhile isPySpace).reverse, ?_, ?_⟩
  · intro c hc
    rw [List.mem_reverse] at hc
    exact List.mem_takeWhile_imp hc
  · unfold rstrip
    rw [← List.reverse_append, List.takeWhile_append_dropWhile, List.reverse_reverse]

theorem pyLower_rstrip (s : PyStr) : pyLower (rstrip s) = rstrip (pyLower s) := by
  unfold pyLower rstrip
  rw [← List.map_reverse, List.dropWhile_map]
  have hpf : (isPySpace ∘ lowerChar) = isPySpace := funext isPySpace_lowerChar
  rw [hpf, List.map_reverse]

theorem takeUntilHC_cons_of_not {c : Char} (hc : isPySpace c = false) (rest : PyStr) :
    takeUntilHC (c :: rest) = c :: takeUntilHC rest := by
  have hcond : (c == ' ' && rest.head? == some '#') = false := by
    by_contra hb
    have htrue : (c == ' ' && rest.head? == some '#') = true := by
      revert hb
      cases (c == ' ' && rest.head? == some '#') <;> simp
    rw [Bool.and_eq_true, beq_iff_eq] at htrue
    rw [htrue.1] at hc
    exact absurd hc (by decide)
  show (if (c == ' ' && rest.head? == some '#') = true then [] else c :: takeUntilHC rest) =
    c :: takeUntilHC rest
  rw [hcond]
  simp

theorem normalize_requirement_shape (x : PyStr) :
    normalize_requirement x = [] ∨
    ((∃ c t, normalize_requirement x = c :: t ∧ isPySpace c = false ∧ c ≠ '#') ∧
     containsHC (normalize_requirement x) = false ∧
     pyLower (normalize_requirement x) = normalize_requirement x) := by
  by_cases h1 : (pyStrip x).isEmpty = true
  · left
    unfold normalize_requirement
    rw [if_pos h1]
  · by_cases h2 : ((pyStrip x).head? == some '#') = true
    · left
      unfold normalize_requirement
      rw [if_neg h1, if_pos h2]
    · right
      obtain ⟨c0, t0, hsx⟩ : ∃ c0 t0, pyStrip x = c0 :: t0 := by
        cases hh : pyStrip x with
        | nil => rw [hh] at h1; simp at h1
        | cons a b => exact ⟨a, b, rfl⟩
      have hc0 : isPySpace c0 = false := by
        have : (pyStrip x).head? = some c0 := by rw [hsx]; rfl
        unfold pyStrip at this
        cases hl : lstrip x with
        | nil => rw [hl] at this; simp [rstrip] at this
        | cons d u =>
          have hd : isPySpace d = false := dropWhile_head_false (by rw [← lstrip, hl]; rfl)
          rw [hl, rstrip_cons_of_not hd] at this
          obtain rfl : d = c0 := by simpa using this
          exact hd
      have hc0h : c0 ≠ '#' := by
        intro e
        apply h2
        rw [hsx, e]
        rfl
      have hnorm : normalize_requirement x =
          pyLower (if containsHC (pyStrip x) then takeUntilHC (pyStrip x) else pyStrip x) := by
        unfold normalize_requirement
        rw [if_neg h1, if_neg h2]
      by_cases hcc : containsHC (pyStrip x) = true
      · have hl2 : normalize_requirement x = pyLower (c0 :: takeUntilHC t0) := by
          rw [hnorm, if_pos hcc, hsx, takeUntilHC_cons_of_not hc0]
        refine ⟨⟨lowerChar c0, pyLower (takeUntilHC t0), hl2, ?_, ?_⟩, ?_, ?_⟩
        · rw [isPySpace_lowerChar]; exact hc0
        · exact lowerChar_ne_hash hc0h
        · rw [hl2, containsHC_pyLower, ← takeUntilHC_cons_of_not hc0, ← hsx]
          exact containsHC_takeUntilHC (pyStrip x)
        · rw [hl2, pyLower_pyLower]
      · have hcf : containsHC (pyStrip x) = false := by
          revert hcc
          cases containsHC (pyStrip x) <;> simp
        have hl2 : normalize_requirement x = pyLower (c0 :: t0) := by
          rw [hnorm, if_neg hcc, hsx]
        refine ⟨⟨lowerChar c0, pyLower t0, hl2, ?_, ?_⟩, ?_, ?_⟩
        · rw [isPySpace_lowerChar]; exact hc0
        · exact lowerChar_ne_hash hc0h
        · rw [hl2, containsHC_pyLower, ← hsx]
          exact hcf
        · rw [hl2, pyLower_pyLower]

/-- Claim C4 counterexample: normalization is not idempotent.  On the line
`a  # b` (two spaces before the inline comment marker) one application yields
`a ` — the truncation at the marker keeps the whitespace that preceded it —
and a second application strips that trailing space, yielding `a`. -/
theorem normalize_requirement_not_idempotent :
    normalize_requirement (normalize_requirement ['a', ' ', ' ', '#', ' ', 'b']) ≠
      normalize_requirement ['a', ' ', ' ', '#', ' ', 'b'] := by decide

/-- Claim C4 as amended: a second application of `_normalize_requirement`
equals stripping the first application's result of whitespace; so
normalization is idempotent exactly on lines where truncation at an inline
comment marker leaves no trailing whitespace (in particular on all lines
without an inline comment marker). -/
theorem normalize_requirement_twice (x : PyStr) :
    normalize_requirement (normalize_requirement x) =
      pyStrip (normalize_requirement x) := by
  rcases normalize_requirement_shape x with h | ⟨⟨c, t, hy, hcs, hch⟩, hhc, hlow⟩
  · rw [h]
    rfl
  · set y := normalize_requirement x with hydef
    have hls : lstrip y = y := by
      rw [hy]
      unfold lstrip
      rw [List.dropWhile_cons, if_neg]
      simp [hcs]
    have hps : pyStrip y = c :: rstrip t := by
      unfold pyStrip
      rw [hls, hy, rstrip_cons_of_not hcs]
    have hrs : pyStrip y = rstrip y := by
      unfold pyStrip
      rw [hls]
    obtain ⟨w, hw, hsplit⟩ := exists_rstrip_spaces y
    have hhc2 : containsHC (pyStrip y) = false := by
      rw [hrs]
      exact containsHC_append_of _ w (hsplit ▸ hhc)
    have hne : (pyStrip y).isEmpty = false := by
      rw [hps]
      rfl
    have hh2 : ((pyStrip y).head? == some '#') = false := by
      rw [hps]
      simpa using hch
    unfold normalize_requirement
    rw [if_neg (by rw [hne]; simp), if_neg (by rw [hh2]; simp), if_neg (by rw [hhc2]; simp)]
    rw [hrs, pyLower_rstrip, hlow]

/-- Witness for C7 at a concrete registry. -/
theorem find_venvs_characterization_witness :
    (find_venvs_by_requirements fsNone [recE1] (.seqOf [flaskLine])).1 =
      [.saveRegistry ([recE1].map (spec_backfill fsNone))] :=
  (find_venvs_by_requirements_characterization fsNone [recE1] (.seqOf [flaskLine])).1

/-- Witness for C8 at a concrete failing process result. -/
theorem run_pip_install_log_and_raise_witness :
    (run_pip_install [] ⟨1, ['o'], ['e']⟩).1 = [] ++ ['o'] ++ ['e'] ∧
    ((run_pip_install [] ⟨1, ['o'], ['e']⟩).2 = .error (.processFailure 1) ↔ (1 : Int) ≠ 0) :=
  ⟨(run_pip_install_log_and_raise [] ⟨1, ['o'], ['e']⟩).1,
   (run_pip_install_log_and_raise [] ⟨1, ['o'], ['e']⟩).2.1⟩

/-- Witness for C9: the directory is removed even though the registry holds
no matching record and the call returns false. -/
theorem delete_venv_characterization_witness :
    Eff.rmtree (delete_target fsAll cfg0 ['p']) ∈ (delete_venv fsAll cfg0 [] ['p'] true).1 :=
  (delete_venv_characterization fsAll cfg0 [] ['p'] true).2.2.1.mpr ⟨rfl, rfl⟩
